import Mathlib

/-!
Shallow embedding of the MonkeyInterpreter repository (rafixcs/MonkeyInterpreter):
the parser of src/src/parser/parser.go and the interactive shell loop of
src/src/repl/repl.go, together with the small parts of the token, ast, object
and evaluator packages that those two files use (those packages are not part
of the provided sources and are modelled from the specification).

The Go parser pulls tokens from a lexer one at a time; the lexer produces the
finite token sequence of the input line and then answers EOF forever.  We
model the not-yet-consumed part of that sequence as a `List Token`: the
current token is the head of the list (EOF once the list is exhausted), the
peek token is the head of its tail, and `nextToken` drops one element.
Loops of the Go code that are not structurally recursive are embedded with a
fuel argument; `none` from a fuelled function means the fuel ran out.
-/

namespace Monkey

/-- Modelled from the spec: token kinds (the token package is not in src).
A token kind is a string, as a Go TokenType is. -/
abbrev TokenType := String

/-- Modelled from the spec: the keyword kind for `let`. -/
def LET : TokenType := "LET"

/-- Modelled from the spec: the keyword kind for `return`. -/
def RETURN : TokenType := "RETURN"

/-- Modelled from the spec: the identifier kind. -/
def IDENT : TokenType := "IDENT"

/-- Modelled from the spec: the integer-literal kind. -/
def INT : TokenType := "INT"

/-- Modelled from the spec: the `=` delimiter kind. -/
def ASSIGN : TokenType := "="

/-- Modelled from the spec: the `;` delimiter kind. -/
def SEMICOLON : TokenType := ";"

/-- Modelled from the spec: the `+` operator kind. -/
def PLUS : TokenType := "+"

/-- Modelled from the spec: the `*` operator kind. -/
def ASTERISK : TokenType := "*"

/-- Modelled from the spec: the `(` delimiter kind. -/
def LPAREN : TokenType := "("

/-- Modelled from the spec: the `)` delimiter kind. -/
def RPAREN : TokenType := ")"

/-- Modelled from the spec: the end-of-input kind. -/
def EOF : TokenType := "EOF"

/-- Modelled from the spec: a token is a kind together with its literal text. -/
structure Token where
  type : TokenType
  literal : String
deriving Repr, DecidableEq

/-- The end-of-input token the lexer keeps returning once the input is
exhausted. -/
def eofToken : Token := ⟨EOF, ""⟩

/-- Modelled from the spec: ast.Identifier (the ast package is not in src). -/
structure Identifier where
  token : Token
  value : String
deriving Repr, DecidableEq

/-- Modelled from the spec: the expression family of AST nodes, restricted to
the constructors the claims mention (identifier, integer literal, infix
operator node).  The parser in src never builds an Expression. -/
inductive Expression where
  | identExpr : Identifier → Expression
  | intLit : Int → Expression
  | infixExpr : Expression → String → Expression → Expression
deriving Repr, DecidableEq

/-- Modelled from the spec: the ast.LetStatement struct as the parser fills
it — the `let` token, the Name identifier and the Value expression.  Fields
the Go code may leave nil are `Option`s. -/
structure LetStatement where
  token : Token
  name : Option Identifier
  value : Option Expression
deriving Repr, DecidableEq

/-- Modelled from the spec: the ast.ReturnStatement struct — the `return`
token and the ReturnValue expression. -/
structure ReturnStatement where
  token : Token
  returnValue : Option Expression
deriving Repr, DecidableEq

/-- Modelled from the spec: the ast.ExpressionStatement struct — its first
token and the expression.  The parser in src never constructs one. -/
structure ExpressionStatement where
  token : Token
  expression : Option Expression
deriving Repr, DecidableEq

/-- A non-nil ast.Statement interface value: the dynamic type of the pointer
it wraps, together with that pointer.  Go distinguishes the untyped nil
interface (what parseStatement's default branch returns — `none` at the use
sites of `Option Statement`) from an interface wrapping a nil pointer of a
concrete statement type (Go's typed nil): `Statement.letStmt none` is the
value of `ast.Statement(( *ast.LetStatement )(nil))`, which compares
non-nil as an interface.  ParseProgram's `stmt != nil` check therefore keeps
such entries. -/
inductive Statement where
  | letStmt : Option LetStatement → Statement
  | returnStmt : Option ReturnStatement → Statement
  | exprStmt : Option ExpressionStatement → Statement
deriving Repr, DecidableEq

/-- Whether a statement interface value has dynamic type *ast.LetStatement
or *ast.ReturnStatement (as opposed to *ast.ExpressionStatement), whatever
the pointer inside. -/
def Statement.isLetOrReturn : Statement → Bool
  | .letStmt _ => true
  | .returnStmt _ => true
  | .exprStmt _ => false

/-- Whether a statement interface value wraps an actual node, as opposed to
being a typed nil (non-nil interface around a nil pointer). -/
def Statement.wrapsNode : Statement → Bool
  | .letStmt (some _) => true
  | .returnStmt (some _) => true
  | .exprStmt (some _) => true
  | _ => false

/-- ast.Program: the ordered list of parsed top-level statements. -/
structure Program where
  statements : List Statement
deriving Repr, DecidableEq

/-- The parser state of parser.go: the suffix of the lexer's token stream that
has not been consumed yet (`toks`, whose head is curToken and second element
is peekToken, EOF past the end) and the accumulated diagnostics (`errors`).
`Parser.New` reads two tokens so that curToken is the first token of the
input; starting from the whole input list gives exactly that state. -/
structure Parser where
  toks : List Token
  errors : List String
deriving Repr, DecidableEq

/-- p.curToken: head of the unconsumed stream, EOF when exhausted. -/
def Parser.curToken (p : Parser) : Token := p.toks.headD eofToken

/-- p.peekToken: second element of the unconsumed stream, EOF when exhausted. -/
def Parser.peekToken (p : Parser) : Token := (p.toks.drop 1).headD eofToken

/-- p.nextToken(): shift the two-token window one token forward. -/
def Parser.nextToken (p : Parser) : Parser := { p with toks := p.toks.drop 1 }

/-- parser.go curTokenIs. -/
def Parser.curTokenIs (p : Parser) (t : TokenType) : Bool := p.curToken.type = t

/-- parser.go peekTokenIs. -/
def Parser.peekTokenIs (p : Parser) (t : TokenType) : Bool := p.peekToken.type = t

/-- parser.go peekErrors: append the formatted mismatch diagnostic. -/
def Parser.peekErrors (p : Parser) (t : TokenType) : Parser :=
  { p with errors := p.errors ++
      ["expected next token to be " ++ t ++ ", got " ++ p.peekToken.type ++ " instead"] }

/-- parser.go expectPeek: advance past a matching peek token, or record a
diagnostic and leave the token window unchanged. -/
def Parser.expectPeek (p : Parser) (t : TokenType) : Bool × Parser :=
  if p.peekTokenIs t then (true, p.nextToken)
  else (false, p.peekErrors t)

/-- The `for !p.curTokenIs(token.SEMICOLON) { p.nextToken() }` loop shared by
parseLetStatment and parseReturnStatment, with fuel: one unit per executed
`nextToken`.  `none` means the fuel ran out before a SEMICOLON became the
current token.  Once the stream is exhausted the Go loop spins on EOF forever,
which is why a fuel bound is needed at all. -/
def skipToSemicolon : Nat → Parser → Option Parser
  | n, p =>
    if p.curTokenIs SEMICOLON then some p
    else
      match n with
      | 0 => none
      | Nat.succ m => skipToSemicolon m p.nextToken

/-- parser.go parseLetStatment, whose Go result type is the pointer
*ast.LetStatement: the result pointer is `none` exactly when the Go function
returns nil (an expectPeek failure); the outer `none` marks divergence of
the semicolon-skipping loop.  The skip loop is run with fuel `length + 1`,
which the theorems `skipToSemicolon_some_of_hasSemicolon` and
`skipToSemicolon_none` below show is exact: with that much fuel the fuelled
loop returns `some` precisely when the Go loop terminates, and `none`
precisely when the Go loop runs forever (no amount of fuel helps). -/
def Parser.parseLetStatment (p : Parser) : Option (Option LetStatement × Parser) :=
  let tok := p.curToken
  match p.expectPeek IDENT with
  | (false, p1) => some (none, p1)
  | (true, p1) =>
    let name : Identifier := ⟨p1.curToken, p1.curToken.literal⟩
    match p1.expectPeek ASSIGN with
    | (false, p2) => some (none, p2)
    | (true, p2) =>
      match skipToSemicolon (p2.toks.length + 1) p2 with
      | none => none
      | some p3 => some (some ⟨tok, some name, none⟩, p3)

/-- parser.go parseReturnStatment (Go result type *ast.ReturnStatement),
with the same conventions as parseLetStatment. -/
def Parser.parseReturnStatment (p : Parser) : Option (Option ReturnStatement × Parser) :=
  let tok := p.curToken
  let p1 := p.nextToken
  match skipToSemicolon (p1.toks.length + 1) p1 with
  | none => none
  | some p2 => some (some ⟨tok, none⟩, p2)

/-- parser.go parseStatement: dispatch on the current token's kind.  The LET
and RETURN branches return their statement parser's pointer converted to the
ast.Statement interface — a NON-nil interface value even when the pointer is
nil (Go's typed nil) — while the default branch returns the untyped nil
interface (`none`). -/
def Parser.parseStatement (p : Parser) : Option (Option Statement × Parser) :=
  if p.curTokenIs LET then
    match p.parseLetStatment with
    | none => none
    | some (stmt, p1) => some (some (.letStmt stmt), p1)
  else if p.curTokenIs RETURN then
    match p.parseReturnStatment with
    | none => none
    | some (stmt, p1) => some (some (.returnStmt stmt), p1)
  else some (none, p)

/-- parser.go ParseProgram's loop, with fuel: one unit per loop iteration.
The `stmt != nil` check appends every statement interface value except the
untyped nil — in particular it keeps the typed-nil *ast.LetStatement /
*ast.ReturnStatement values a failed statement parse yields, since those
compare non-nil as interfaces; `none` propagates a diverging statement parse
(or exhausted fuel). -/
def Parser.parseProgramFuel : Nat → Parser → List Statement → Option (Program × Parser)
  | n, p, acc =>
    if p.curTokenIs EOF then some (⟨acc⟩, p)
    else
      match n with
      | 0 => none
      | Nat.succ m =>
        match p.parseStatement with
        | none => none
        | some (stmtOpt, p1) =>
          Parser.parseProgramFuel m p1.nextToken (acc ++ stmtOpt.toList)

/-- parser.New followed by p.ParseProgram() on the token stream `ts`, with
fuel `n` for the top-level loop. -/
def parseProgram (n : Nat) (ts : List Token) : Option (Program × Parser) :=
  Parser.parseProgramFuel n ⟨ts, []⟩ []

/-- Whether some token of the list is a SEMICOLON: the exact condition under
which the skip loop of parseLetStatment / parseReturnStatment terminates. -/
def hasSemicolon (l : List Token) : Bool := l.any fun tk => tk.type = SEMICOLON

/-- Modelled from the spec: the runtime value variants the claims touch (the
object package is not in src). -/
inductive Object where
  | intObj : Int → Object
  | boolObj : Bool → Object
  | nullObj : Object
  | errorObj : String → Object
deriving Repr, DecidableEq

/-- Modelled from the spec: the canonical Inspect rendering of each Object
kind (Integer as decimal digits, Boolean as true/false, Null as null, Error
prefixed with ERROR). -/
def Object.inspect : Object → String
  | .intObj n => toString n
  | .boolObj b => if b then "true" else "false"
  | .nullObj => "null"
  | .errorObj m => "ERROR: " ++ m

/-- The ASCII banner repl.go prints before parser diagnostics.  Its exact
drawing is cosmetic (the spec scopes banner cosmetics out); the model keeps
it as a fixed opaque chunk of output. -/
def monkeyFace : String := "MONKEY_FACE"

/-- repl.go printParserErrors: the ordered chunks written to `out` — the
banner, two header lines, then one tab-indented line per diagnostic. -/
def printParserErrors (errors : List String) : List String :=
  monkeyFace :: "Woops! We ran into some monkey business here!\n" ::
    " parser errors:\n" :: errors.map fun msg => "\t" ++ msg ++ "\n"

/-- The body of repl.go Start's loop for one scanned line, at token level
(the line's lexed token stream stands for the line).  `ev` is evaluator.Eval
exactly as the shell calls it: it receives the parsed Program and nothing
else — Start holds no Environment to hand it.  The result is the chunks
written to `out` paired with the Program handed to `ev` (`none` when the
diagnostics branch skipped evaluation); the outer `none` marks a diverging
parse.  The Go nil-result guard around Inspect is the `none` case of `ev`. -/
def runLine (ev : Program → Option Object) (line : List Token) :
    Option (List String × Option Program) :=
  match parseProgram (line.length + 1) line with
  | none => none
  | some (program, p) =>
    if p.errors ≠ [] then some (printParserErrors p.errors, none)
    else
      match ev program with
      | some o => some ([o.inspect, "\n"], some program)
      | none => some ([], some program)

/-- repl.go Start over a whole session, as the concatenation of its per-line
processing: the chunks written to `out` and the trace of Programs passed to
evaluator.Eval, in order.  The loop state Start carries from one iteration to
the next is nothing but the scanner and the writer: no Environment exists in
the function. -/
def replRun (ev : Program → Option Object) : List (List Token) →
    Option (List String × List Program)
  | [] => some ([], [])
  | line :: rest =>
    match runLine ev line with
    | none => none
    | some (out, progOpt) =>
      match replRun ev rest with
      | none => none
      | some (outs, progs) => some (out ++ outs, progOpt.toList ++ progs)

/-- Modelled from the spec: a minimal instance of the evaluator interface the
shell actually invokes.  repl.go calls `evaluator.Eval(program)` passing only
the Program, so the evaluator cannot receive a session environment; per the
spec evaluation starts from an environment, which here is necessarily fresh
and empty on every call.  On the statement forms the current parser can emit
(name-only let statements, value-less return statements, and the empty
program) the spec-described evaluation yields Null, so on every Program this
parser can hand the shell the result is the Null object. -/
def evalModel (_program : Program) : Option Object :=
  some .nullObj

/-- Whether the last token of a list (when there is one) is a SEMICOLON.
Token streams with this shape make every semicolon-skipping loop the parser
may start terminate. -/
def endsSemi (l : List Token) : Bool :=
  match l.getLast? with
  | some tk => tk.type = SEMICOLON
  | none => true

/-- A nonempty suffix of a SEMICOLON-terminated stream is itself
SEMICOLON-terminated. -/
theorem endsSemi_suffix {l l' : List Token} (hs : l' <:+ l) (hne : l' ≠ [])
    (h : endsSemi l = true) : endsSemi l' = true := by
  obtain ⟨pre, rfl⟩ := hs
  unfold endsSemi at h ⊢
  rw [List.getLast?_append] at h
  cases hgl : l'.getLast? with
  | none => exact absurd (List.getLast?_eq_none_iff.mp hgl) hne
  | some tk => rw [hgl] at h; simpa using h

/-- Dropping the first token preserves SEMICOLON-termination. -/
theorem endsSemi_drop_one {l : List Token} (h : endsSemi l = true) :
    endsSemi (l.drop 1) = true := by
  by_cases hne : l.drop 1 = []
  · rw [hne]; rfl
  · exact endsSemi_suffix (List.drop_suffix 1 l) hne h

/-- A nonempty SEMICOLON-terminated stream contains a SEMICOLON. -/
theorem hasSemicolon_of_endsSemi {l : List Token} (hne : l ≠ [])
    (h : endsSemi l = true) : hasSemicolon l = true := by
  unfold endsSemi at h
  cases hgl : l.getLast? with
  | none => exact absurd (List.getLast?_eq_none_iff.mp hgl) hne
  | some tk =>
    rw [hgl] at h
    unfold hasSemicolon
    rw [List.any_eq_true]
    exact ⟨tk, List.mem_of_getLast?_eq_some hgl, h⟩

/-- When a stream contains no SEMICOLON its current token is never one. -/
theorem curTokenIs_semi_false {p : Parser} (h : hasSemicolon p.toks = false) :
    p.curTokenIs SEMICOLON = false := by
  cases htoks : p.toks with
  | nil => simp [Parser.curTokenIs, Parser.curToken, htoks, eofToken, EOF, SEMICOLON]
  | cons t r =>
    have ht : ¬ t.type = SEMICOLON := by
      intro hc
      rw [htoks] at h
      simp [hasSemicolon, hc] at h
    simp [Parser.curTokenIs, Parser.curToken, htoks, ht]

/-- Consuming tokens cannot make a SEMICOLON appear. -/
theorem hasSemicolon_drop {l : List Token} (h : hasSemicolon l = false) (n : Nat) :
    hasSemicolon (l.drop n) = false := by
  simp only [hasSemicolon, List.any_eq_false] at h ⊢
  intro tk htk
  exact h tk ((List.drop_suffix n l).subset htk)

/-- Divergence of the skip loop: on a stream without any SEMICOLON the Go
loop of parseLetStatment / parseReturnStatment never meets its exit
condition, so the fuelled embedding returns `none` no matter how much fuel
it is granted. -/
theorem skipToSemicolon_none : ∀ (n : Nat) (p : Parser),
    hasSemicolon p.toks = false → skipToSemicolon n p = none := by
  intro n
  induction n with
  | zero =>
    intro p h
    unfold skipToSemicolon
    rw [if_neg (by simp [curTokenIs_semi_false h])]
  | succ m ih =>
    intro p h
    unfold skipToSemicolon
    rw [if_neg (by simp [curTokenIs_semi_false h])]
    exact ih p.nextToken (hasSemicolon_drop h 1)

/-- Whatever the skip loop returns is a nonempty suffix of the tokens it
started from, positioned on a SEMICOLON, with the diagnostics untouched. -/
theorem skipToSemicolon_some_spec : ∀ (n : Nat) (p q : Parser),
    skipToSemicolon n p = some q →
    q.toks <:+ p.toks ∧ q.errors = p.errors ∧ q.toks ≠ [] ∧
      q.curTokenIs SEMICOLON = true := by
  intro n
  induction n with
  | zero =>
    intro p q h
    unfold skipToSemicolon at h
    by_cases hc : p.curTokenIs SEMICOLON = true
    · rw [if_pos (by simpa using hc)] at h
      cases h
      refine ⟨List.suffix_refl _, rfl, ?_, hc⟩
      intro hnil
      rw [Parser.curTokenIs, Parser.curToken, hnil] at hc
      exact absurd hc (by decide)
    · rw [if_neg (by simpa using hc)] at h
      cases h
  | succ m ih =>
    intro p q h
    unfold skipToSemicolon at h
    by_cases hc : p.curTokenIs SEMICOLON = true
    · rw [if_pos (by simpa using hc)] at h
      cases h
      refine ⟨List.suffix_refl _, rfl, ?_, hc⟩
      intro hnil
      rw [Parser.curTokenIs, Parser.curToken, hnil] at hc
      exact absurd hc (by decide)
    · rw [if_neg (by simpa using hc)] at h
      obtain ⟨hsuf, herr, hne, hq⟩ := ih p.nextToken q h
      exact ⟨hsuf.trans (List.drop_suffix 1 p.toks), herr, hne, hq⟩

/-- Termination of the skip loop: a SEMICOLON somewhere in the stream is
reached with fuel at most the length of the stream. -/
theorem skipToSemicolon_some_of_hasSemicolon :
    ∀ (l : List Token) (errs : List String) (n : Nat), l.length ≤ n →
      hasSemicolon l = true → ∃ q, skipToSemicolon n ⟨l, errs⟩ = some q := by
  intro l
  induction l with
  | nil =>
    intro errs n _ h
    simp [hasSemicolon] at h
  | cons t r ih =>
    intro errs n hn h
    by_cases ht : t.type = SEMICOLON
    · refine ⟨⟨t :: r, errs⟩, ?_⟩
      unfold skipToSemicolon
      rw [if_pos (by simp [Parser.curTokenIs, Parser.curToken, ht])]
    · have hr : hasSemicolon r = true := by
        simpa [hasSemicolon, ht] using h
      obtain ⟨m, rfl⟩ : ∃ m, n = m + 1 := ⟨n - 1, by simp at hn; omega⟩
      obtain ⟨q, hq⟩ := ih errs m (by simp at hn; omega) hr
      refine ⟨q, ?_⟩
      unfold skipToSemicolon
      rw [if_neg (by simp [Parser.curTokenIs, Parser.curToken, ht])]
      exact hq

/-- A parser whose current token is not EOF still has unconsumed tokens. -/
theorem toks_ne_nil_of_not_eof {p : Parser} (h : p.curTokenIs EOF = false) :
    p.toks ≠ [] := by
  intro hnil
  rw [Parser.curTokenIs, Parser.curToken, hnil] at h
  exact absurd h (by decide)

/-- A successful expectPeek for a kind other than EOF leaves at least one
unconsumed token after the shift. -/
theorem drop_ne_nil_of_peekTokenIs {p : Parser} {t : TokenType}
    (h : p.peekTokenIs t = true) (ht : t ≠ EOF) : p.toks.drop 1 ≠ [] := by
  intro hnil
  rw [Parser.peekTokenIs, Parser.peekToken, hnil] at h
  simp only [List.headD_nil, decide_eq_true_eq] at h
  exact ht (by rw [← h]; rfl)

/-- Unfolding equation of expectPeek for a matching peek token. -/
theorem Parser.expectPeek_pos {p : Parser} {t : TokenType}
    (h : p.peekTokenIs t = true) : p.expectPeek t = (true, p.nextToken) := by
  unfold Parser.expectPeek
  rw [if_pos h]

/-- Unfolding equation of expectPeek for a mismatching peek token. -/
theorem Parser.expectPeek_neg {p : Parser} {t : TokenType}
    (h : p.peekTokenIs t = false) : p.expectPeek t = (false, p.peekErrors t) := by
  unfold Parser.expectPeek
  rw [if_neg (by simp [h])]

/-- Progress of parseStatement on a SEMICOLON-terminated stream: the
statement parse finishes (no skip loop diverges), consumes only tokens of the
stream, and leaves a SEMICOLON-terminated stream behind. -/
theorem parseStatement_progress (p : Parser) (hsemi : endsSemi p.toks = true) :
    ∃ s q, p.parseStatement = some (s, q) ∧ q.toks.length ≤ p.toks.length ∧
      endsSemi q.toks = true := by
  by_cases hlet : p.curTokenIs LET = true
  · by_cases hid : p.peekTokenIs IDENT = true
    · by_cases has : p.nextToken.peekTokenIs ASSIGN = true
      · have hne2 : p.nextToken.toks.drop 1 ≠ [] :=
          drop_ne_nil_of_peekTokenIs has (by decide)
        have hsemi2 : endsSemi p.nextToken.nextToken.toks = true := by
          simp only [Parser.nextToken]
          exact endsSemi_drop_one (endsSemi_drop_one hsemi)
        have hhas : hasSemicolon p.nextToken.nextToken.toks = true :=
          hasSemicolon_of_endsSemi (by simpa [Parser.nextToken] using hne2) hsemi2
        obtain ⟨q, hq⟩ := skipToSemicolon_some_of_hasSemicolon
          p.nextToken.nextToken.toks p.nextToken.nextToken.errors
          (p.nextToken.nextToken.toks.length + 1) (by omega) hhas
        obtain ⟨hsuf, _, hqne, _⟩ := skipToSemicolon_some_spec _ _ _ hq
        have hps : p.parseStatement = some (some (.letStmt (some ⟨p.curToken,
            some ⟨p.nextToken.curToken, p.nextToken.curToken.literal⟩, none⟩)), q) := by
          simp [Parser.parseStatement, Parser.parseLetStatment, hlet,
            Parser.expectPeek_pos hid, Parser.expectPeek_pos has, hq]
        refine ⟨_, q, hps, ?_, endsSemi_suffix hsuf hqne hsemi2⟩
        calc q.toks.length ≤ p.nextToken.nextToken.toks.length := hsuf.sublist.length_le
          _ ≤ p.toks.length := by simp [Parser.nextToken]
      · have hps : p.parseStatement
            = some (some (.letStmt none), p.nextToken.peekErrors ASSIGN) := by
          simp [Parser.parseStatement, Parser.parseLetStatment, hlet,
            Parser.expectPeek_pos hid,
            Parser.expectPeek_neg (Bool.eq_false_iff.mpr has)]
        refine ⟨some (.letStmt none), _, hps, ?_, ?_⟩
        · simp [Parser.peekErrors, Parser.nextToken]
        · simp only [Parser.peekErrors, Parser.nextToken]
          exact endsSemi_drop_one hsemi
    · have hps : p.parseStatement = some (some (.letStmt none), p.peekErrors IDENT) := by
        simp [Parser.parseStatement, Parser.parseLetStatment, hlet,
          Parser.expectPeek_neg (Bool.eq_false_iff.mpr hid)]
      exact ⟨some (.letStmt none), _, hps, by simp [Parser.peekErrors],
        by simpa [Parser.peekErrors] using hsemi⟩
  · by_cases hret : p.curTokenIs RETURN = true
    · have hne1 : p.toks.drop 1 ≠ [] := by
        intro hnil
        have hne : p.toks ≠ [] := by
          intro hnil2
          rw [Parser.curTokenIs, Parser.curToken, hnil2] at hret
          exact absurd hret (by decide)
        have h1 : p.toks.length ≤ 1 := by
          have h0 := congrArg List.length hnil
          simp only [List.length_drop, List.length_nil] at h0
          omega
        obtain ⟨t, ht⟩ : ∃ t, p.toks = [t] := by
          cases hc : p.toks with
          | nil => exact absurd hc hne
          | cons a l =>
            cases l with
            | nil => exact ⟨a, rfl⟩
            | cons b l2 =>
              rw [hc] at h1
              simp at h1
        rw [Parser.curTokenIs, Parser.curToken, ht] at hret
        rw [ht] at hsemi
        unfold endsSemi at hsemi
        simp only [List.getLast?_singleton, decide_eq_true_eq] at hsemi
        simp only [List.headD_cons, decide_eq_true_eq] at hret
        rw [hsemi] at hret
        exact absurd hret (by decide)
      have hsemi1 : endsSemi p.nextToken.toks = true := by
        simpa [Parser.nextToken] using endsSemi_drop_one hsemi
      have hhas : hasSemicolon p.nextToken.toks = true :=
        hasSemicolon_of_endsSemi (by simpa [Parser.nextToken] using hne1) hsemi1
      obtain ⟨q, hq⟩ := skipToSemicolon_some_of_hasSemicolon
        p.nextToken.toks p.nextToken.errors (p.nextToken.toks.length + 1) (by omega) hhas
      obtain ⟨hsuf, _, hqne, _⟩ := skipToSemicolon_some_spec _ _ _ hq
      have hps : p.parseStatement
          = some (some (.returnStmt (some ⟨p.curToken, none⟩)), q) := by
        simp [Parser.parseStatement, Parser.parseReturnStatment, hlet, hret, hq]
      refine ⟨_, q, hps, ?_, endsSemi_suffix hsuf hqne hsemi1⟩
      calc q.toks.length ≤ p.nextToken.toks.length := hsuf.sublist.length_le
        _ ≤ p.toks.length := by simp [Parser.nextToken]
    · refine ⟨none, p, ?_, le_refl _, hsemi⟩
      simp [Parser.parseStatement, hlet, hret]

/-- Termination of ParseProgram: on a SEMICOLON-terminated token stream the
top-level loop (and every statement parse inside it) completes within one
unit of fuel per unconsumed token. -/
theorem parseProgramFuel_some : ∀ (n : Nat) (p : Parser) (acc : List Statement),
    p.toks.length < n → endsSemi p.toks = true →
    ∃ r, Parser.parseProgramFuel n p acc = some r := by
  intro n
  induction n with
  | zero => intro p acc h _; exact absurd h (Nat.not_lt_zero _)
  | succ m ih =>
    intro p acc hlt hsemi
    by_cases hcur : p.curTokenIs EOF = true
    · refine ⟨(⟨acc⟩, p), ?_⟩
      unfold Parser.parseProgramFuel
      rw [if_pos hcur]
    · obtain ⟨s, q, hps, hlen, hsemi2⟩ := parseStatement_progress p hsemi
      have hne : p.toks ≠ [] := toks_ne_nil_of_not_eof (by simpa using hcur)
      have hpos : 0 < p.toks.length := List.length_pos.mpr hne
      have hlt2 : q.nextToken.toks.length < m := by
        simp only [Parser.nextToken, List.length_drop]
        omega
      obtain ⟨r, hr⟩ := ih q.nextToken (acc ++ s.toList) hlt2 (by
        simpa [Parser.nextToken] using endsSemi_drop_one hsemi2)
      refine ⟨r, ?_⟩
      unfold Parser.parseProgramFuel
      rw [if_neg (by simpa using hcur), hps]
      exact hr

/-- One extra unit of fuel never changes a run of the ParseProgram loop that
already finished. -/
theorem parseProgramFuel_mono : ∀ (n : Nat) (p : Parser) (acc : List Statement)
    (r : Program × Parser), Parser.parseProgramFuel n p acc = some r →
    Parser.parseProgramFuel (n + 1) p acc = some r := by
  intro n
  induction n with
  | zero =>
    intro p acc r h
    unfold Parser.parseProgramFuel at h ⊢
    by_cases hcur : p.curTokenIs EOF = true
    · rw [if_pos hcur] at h ⊢
      exact h
    · rw [if_neg (by simpa using hcur)] at h
      cases h
  | succ m ih =>
    intro p acc r h
    unfold Parser.parseProgramFuel at h ⊢
    by_cases hcur : p.curTokenIs EOF = true
    · rw [if_pos hcur] at h ⊢
      exact h
    · rw [if_neg (by simpa using hcur)] at h ⊢
      cases hps : p.parseStatement with
      | none => rw [hps] at h; cases h
      | some sq =>
        rw [hps] at h
        obtain ⟨s, q⟩ := sq
        exact ih q.nextToken (acc ++ s.toList) r h

/-- Fuel monotonicity, general form. -/
theorem parseProgramFuel_mono_le {n n' : Nat} (hle : n ≤ n') (p : Parser)
    (acc : List Statement) (r : Program × Parser)
    (h : Parser.parseProgramFuel n p acc = some r) :
    Parser.parseProgramFuel n' p acc = some r := by
  induction hle with
  | refl => exact h
  | step _ ih => exact parseProgramFuel_mono _ _ _ _ ih

/-- Every statement interface value parseStatement can hand the top-level
loop (typed nils included) has dynamic type *ast.LetStatement or
*ast.ReturnStatement. -/
theorem parseStatement_kinds (p : Parser) (s : Option Statement) (q : Parser)
    (h : p.parseStatement = some (s, q)) :
    ∀ st ∈ s.toList, st.isLetOrReturn = true := by
  rw [Parser.parseStatement] at h
  by_cases hlet : p.curTokenIs LET = true
  · rw [if_pos hlet] at h
    cases hps : p.parseLetStatment with
    | none => rw [hps] at h; cases h
    | some sp =>
      obtain ⟨stmt, p1⟩ := sp
      rw [hps] at h
      simp only [Option.some.injEq, Prod.mk.injEq] at h
      obtain ⟨hs, _⟩ := h
      subst hs
      intro st hst
      simp only [Option.toList_some, List.mem_singleton] at hst
      subst hst
      rfl
  · rw [if_neg (by simpa using hlet)] at h
    by_cases hret : p.curTokenIs RETURN = true
    · rw [if_pos hret] at h
      cases hps : p.parseReturnStatment with
      | none => rw [hps] at h; cases h
      | some sp =>
        obtain ⟨stmt, p1⟩ := sp
        rw [hps] at h
        simp only [Option.some.injEq, Prod.mk.injEq] at h
        obtain ⟨hs, _⟩ := h
        subst hs
        intro st hst
        simp only [Option.toList_some, List.mem_singleton] at hst
        subst hst
        rfl
    · rw [if_neg (by simpa using hret)] at h
      simp only [Option.some.injEq, Prod.mk.injEq] at h
      obtain ⟨hs, _⟩ := h
      subst hs
      intro st hst
      simp at hst

/-- Every entry the ParseProgram loop accumulates has LetStatement or
ReturnStatement dynamic type, provided the accumulator starts that way. -/
theorem parseProgramFuel_kinds : ∀ (n : Nat) (p : Parser) (acc : List Statement)
    (prog : Program) (q : Parser),
    (∀ st ∈ acc, st.isLetOrReturn = true) →
    Parser.parseProgramFuel n p acc = some (prog, q) →
    ∀ st ∈ prog.statements, st.isLetOrReturn = true := by
  intro n
  induction n with
  | zero =>
    intro p acc prog q hacc h
    unfold Parser.parseProgramFuel at h
    by_cases hcur : p.curTokenIs EOF = true
    · rw [if_pos hcur] at h
      simp only [Option.some.injEq, Prod.mk.injEq] at h
      obtain ⟨hp, _⟩ := h
      subst hp
      exact hacc
    · rw [if_neg (by simpa using hcur)] at h
      cases h
  | succ m ih =>
    intro p acc prog q hacc h
    unfold Parser.parseProgramFuel at h
    by_cases hcur : p.curTokenIs EOF = true
    · rw [if_pos hcur] at h
      simp only [Option.some.injEq, Prod.mk.injEq] at h
      obtain ⟨hp, _⟩ := h
      subst hp
      exact hacc
    · rw [if_neg (by simpa using hcur)] at h
      cases hps : p.parseStatement with
      | none => rw [hps] at h; cases h
      | some sq =>
        rw [hps] at h
        obtain ⟨s, q1⟩ := sq
        refine ih q1.nextToken (acc ++ s.toList) prog q ?_ h
        intro st hst
        rw [List.mem_append] at hst
        cases hst with
        | inl hin => exact hacc st hin
        | inr hin => exact parseStatement_kinds p s q1 hps st hin

/-- C1 (amended): ParseProgram terminates and returns a Program (with its
diagnostics) on every token stream whose final token is a SEMICOLON — fuel
one beyond the stream length always suffices — and the expression-skipping
loop shared by parseLetStatment and parseReturnStatment returns within any
such statement.  When no SEMICOLON remains in the unconsumed stream that
loop never meets its exit condition: the fuelled embedding returns none at
every fuel, i.e. the Go loop runs forever. -/
theorem C1_parse_termination :
    (∀ ts : List Token, endsSemi ts = true →
      ∃ r, parseProgram (ts.length + 1) ts = some r)
    ∧ (∀ (n : Nat) (p : Parser), hasSemicolon p.toks = false →
      skipToSemicolon n p = none) := by
  constructor
  · intro ts h
    exact parseProgramFuel_some (ts.length + 1) ⟨ts, []⟩ [] (Nat.lt_succ_self _) h
  · exact skipToSemicolon_none

/-- Witness for C1: the well-formed stream of "let x = 5;" parses to a
Program within its fuel bound. -/
theorem C1_parse_termination_witness :
    ∃ r, parseProgram
        (([⟨LET, "let"⟩, ⟨IDENT, "x"⟩, ⟨ASSIGN, "="⟩, ⟨INT, "5"⟩,
          ⟨SEMICOLON, ";"⟩] : List Token).length + 1)
        [⟨LET, "let"⟩, ⟨IDENT, "x"⟩, ⟨ASSIGN, "="⟩, ⟨INT, "5"⟩, ⟨SEMICOLON, ";"⟩]
      = some r :=
  C1_parse_termination.1 _ (by decide)

/-- Counterexample to C1 as stated: on the token stream of "let x = 5" (no
SEMICOLON before end-of-input) ParseProgram never returns — the run is none
for every fuel, because parseLetStatment's skip loop diverges (second
conjunct: the whole statement parse already reports the divergence). -/
theorem C1_counterexample :
    (∀ n : Nat, parseProgram n
        [⟨LET, "let"⟩, ⟨IDENT, "x"⟩, ⟨ASSIGN, "="⟩, ⟨INT, "5"⟩] = none)
    ∧ Parser.parseLetStatment
        ⟨[⟨LET, "let"⟩, ⟨IDENT, "x"⟩, ⟨ASSIGN, "="⟩, ⟨INT, "5"⟩], []⟩ = none := by
  constructor
  · intro n
    cases n with
    | zero => decide
    | succ m =>
      show Parser.parseProgramFuel (m + 1)
        ⟨[⟨LET, "let"⟩, ⟨IDENT, "x"⟩, ⟨ASSIGN, "="⟩, ⟨INT, "5"⟩], []⟩ [] = none
      unfold Parser.parseProgramFuel
      rw [if_neg (by decide)]
      rw [show Parser.parseStatement
        ⟨[⟨LET, "let"⟩, ⟨IDENT, "x"⟩, ⟨ASSIGN, "="⟩, ⟨INT, "5"⟩], []⟩ = none
        from by decide]
  · decide

/-- C2 (amended): the shell keeps no Environment — each evaluation call
receives only that line's Program, and a session's outputs and evaluation
calls are the concatenation of the per-line ones, for every evaluator the
shell could link against.  Nothing a `let` line produces reaches any later
line through the shell. -/
theorem C2_lines_independent (ev : Program → Option Object)
    (xs ys : List (List Token)) :
    replRun ev (xs ++ ys) = (replRun ev xs).bind fun a =>
      (replRun ev ys).map fun b => (a.1 ++ b.1, a.2 ++ b.2) := by
  induction xs with
  | nil =>
    show replRun ev ys = (replRun ev ys).map fun b => ([] ++ b.1, [] ++ b.2)
    cases replRun ev ys with
    | none => rfl
    | some b => rfl
  | cons line rest ih =>
    show (match runLine ev line with
      | none => none
      | some (out, progOpt) =>
        match replRun ev (rest ++ ys) with
        | none => none
        | some (outs, progs) => some (out ++ outs, progOpt.toList ++ progs)) = _
    cases hrl : runLine ev line with
    | none =>
      show (none : Option (List String × List Program)) = _
      show _ = (match runLine ev line with
        | none => none
        | some (out, progOpt) =>
          match replRun ev rest with
          | none => none
          | some (outs, progs) =>
            some (out ++ outs, progOpt.toList ++ progs)).bind _
      rw [hrl]
      rfl
    | some op =>
      obtain ⟨out, progOpt⟩ := op
      rw [ih]
      show _ = (match runLine ev line with
        | none => none
        | some (out, progOpt) =>
          match replRun ev rest with
          | none => none
          | some (outs, progs) =>
            some (out ++ outs, progOpt.toList ++ progs)).bind _
      rw [hrl]
      cases replRun ev rest with
      | none => rfl
      | some a =>
        cases replRun ev ys with
        | none => rfl
        | some b =>
          show some (out ++ (a.1 ++ b.1), progOpt.toList ++ (a.2 ++ b.2)) = _
          simp [List.append_assoc]

/-- Counterexample to C2 as stated: in the session "let x = 5;" then "x;",
the second line is processed identically with and without the first line —
its evaluation call receives the same Program and prints the same output
(null, not 5).  The binding the first line's `let` would create is not
resolvable on the second line: Start passes no Environment to the evaluator
(evaluator.Eval receives only the Program). -/
theorem C2_counterexample :
    replRun evalModel
        [[⟨LET, "let"⟩, ⟨IDENT, "x"⟩, ⟨ASSIGN, "="⟩, ⟨INT, "5"⟩, ⟨SEMICOLON, ";"⟩],
         [⟨IDENT, "x"⟩, ⟨SEMICOLON, ";"⟩]]
      = some (["null", "\n", "null", "\n"],
          [⟨[Statement.letStmt (some ⟨⟨LET, "let"⟩,
              some ⟨⟨IDENT, "x"⟩, "x"⟩, none⟩)]⟩, ⟨[]⟩])
    ∧ replRun evalModel [[⟨IDENT, "x"⟩, ⟨SEMICOLON, ";"⟩]]
      = some (["null", "\n"], [⟨[]⟩]) :=
  ⟨by decide, by decide⟩

/-- C3 (amended): both "1 + 2 * 3;" and "(1 + 2) * 3;" parse to a Program
with no statements and no diagnostics — the current parser drops expression
statements — so the two results are structurally identical, not different. -/
theorem C3_expression_statements_dropped :
    parseProgram 7 [⟨INT, "1"⟩, ⟨PLUS, "+"⟩, ⟨INT, "2"⟩, ⟨ASTERISK, "*"⟩,
        ⟨INT, "3"⟩, ⟨SEMICOLON, ";"⟩]
      = some (⟨[]⟩, ⟨[], []⟩)
    ∧ parseProgram 9 [⟨LPAREN, "("⟩, ⟨INT, "1"⟩, ⟨PLUS, "+"⟩, ⟨INT, "2"⟩,
        ⟨RPAREN, ")"⟩, ⟨ASTERISK, "*"⟩, ⟨INT, "3"⟩, ⟨SEMICOLON, ";"⟩]
      = some (⟨[]⟩, ⟨[], []⟩) :=
  ⟨by decide, by decide⟩

/-- Counterexample to C3 as stated: the two parses return equal Programs,
and neither consists of a single statement (both are empty), so no infix
tree is produced and nothing differs observably between them. -/
theorem C3_counterexample :
    (parseProgram 7 [⟨INT, "1"⟩, ⟨PLUS, "+"⟩, ⟨INT, "2"⟩, ⟨ASTERISK, "*"⟩,
        ⟨INT, "3"⟩, ⟨SEMICOLON, ";"⟩]).map Prod.fst
      = (parseProgram 9 [⟨LPAREN, "("⟩, ⟨INT, "1"⟩, ⟨PLUS, "+"⟩, ⟨INT, "2"⟩,
        ⟨RPAREN, ")"⟩, ⟨ASTERISK, "*"⟩, ⟨INT, "3"⟩, ⟨SEMICOLON, ";"⟩]).map Prod.fst
    ∧ (parseProgram 7 [⟨INT, "1"⟩, ⟨PLUS, "+"⟩, ⟨INT, "2"⟩, ⟨ASTERISK, "*"⟩,
        ⟨INT, "3"⟩, ⟨SEMICOLON, ";"⟩]).map (fun r => r.1.statements.length)
      ≠ some 1 :=
  ⟨by decide, by decide⟩

/-- C4 (amended): on every accepted stream LET, IDENT, ASSIGN, then a
remainder containing a SEMICOLON, parseLetStatment returns a LetStatement
that carries the identifier as its Name but leaves the Value field unset
(none): the tokens between the `=` and the `;` are skipped, not parsed, and
no diagnostic is recorded. -/
theorem C4_let_name_no_value (ltLit idLit asLit : String) (rest : List Token)
    (errs : List String) (h : hasSemicolon rest = true) :
    ∃ q, Parser.parseLetStatment
        ⟨⟨LET, ltLit⟩ :: ⟨IDENT, idLit⟩ :: ⟨ASSIGN, asLit⟩ :: rest, errs⟩
      = some (some (LetStatement.mk ⟨LET, ltLit⟩
          (some ⟨⟨IDENT, idLit⟩, idLit⟩) none), q) ∧ q.errors = errs := by
  have hhas : hasSemicolon (⟨ASSIGN, asLit⟩ :: rest) = true := by
    unfold hasSemicolon at h ⊢
    rw [List.any_cons, h, Bool.or_true]
  obtain ⟨q, hq⟩ := skipToSemicolon_some_of_hasSemicolon (⟨ASSIGN, asLit⟩ :: rest)
    errs ((⟨ASSIGN, asLit⟩ :: rest).length + 1) (by omega) hhas
  obtain ⟨_, herr, _, _⟩ := skipToSemicolon_some_spec _ _ _ hq
  have e1 : Parser.expectPeek
      ⟨⟨LET, ltLit⟩ :: ⟨IDENT, idLit⟩ :: ⟨ASSIGN, asLit⟩ :: rest, errs⟩ IDENT
      = (true, ⟨⟨IDENT, idLit⟩ :: ⟨ASSIGN, asLit⟩ :: rest, errs⟩) := by
    rw [Parser.expectPeek_pos (by simp [Parser.peekTokenIs, Parser.peekToken])]
    rfl
  have e2 : Parser.expectPeek
      ⟨⟨IDENT, idLit⟩ :: ⟨ASSIGN, asLit⟩ :: rest, errs⟩ ASSIGN
      = (true, ⟨⟨ASSIGN, asLit⟩ :: rest, errs⟩) := by
    rw [Parser.expectPeek_pos (by simp [Parser.peekTokenIs, Parser.peekToken])]
    rfl
  refine ⟨q, ?_, herr⟩
  rw [Parser.parseLetStatment, e1]
  dsimp only
  rw [e2]
  dsimp only
  rw [hq]
  rfl

/-- Witness for C4: the accepted stream of "let x = 5;". -/
theorem C4_witness :
    ∃ q, Parser.parseLetStatment
        ⟨[⟨LET, "let"⟩, ⟨IDENT, "x"⟩, ⟨ASSIGN, "="⟩, ⟨INT, "5"⟩, ⟨SEMICOLON, ";"⟩], []⟩
      = some (some (LetStatement.mk ⟨LET, "let"⟩
          (some ⟨⟨IDENT, "x"⟩, "x"⟩) none), q) ∧ q.errors = [] :=
  C4_let_name_no_value "let" "x" "=" [⟨INT, "5"⟩, ⟨SEMICOLON, ";"⟩] [] (by decide)

/-- Counterexample to C4 as stated: for the accepted stream of "let x = 5;"
the returned LetStatement's value field is none — it is not the AST of the
expression between `=` and `;` (which would be the integer literal 5). -/
theorem C4_counterexample :
    (Parser.parseLetStatment
        ⟨[⟨LET, "let"⟩, ⟨IDENT, "x"⟩, ⟨ASSIGN, "="⟩, ⟨INT, "5"⟩, ⟨SEMICOLON, ";"⟩], []⟩).map
        (fun r => r.1.map LetStatement.value)
      = some (some none)
    ∧ (Parser.parseLetStatment
        ⟨[⟨LET, "let"⟩, ⟨IDENT, "x"⟩, ⟨ASSIGN, "="⟩, ⟨INT, "5"⟩, ⟨SEMICOLON, ";"⟩], []⟩).map
        (fun r => r.1.map LetStatement.value)
      ≠ some (some (some (Expression.intLit 5))) :=
  ⟨by decide, by decide⟩

/-- C5 (amended): on every stream RETURN followed by a remainder containing a
SEMICOLON, parseReturnStatment returns a ReturnStatement whose return-value
field is unset (none): the trailing expression tokens are skipped, not
parsed, and no diagnostic is recorded. -/
theorem C5_return_no_value (retLit : String) (rest : List Token)
    (errs : List String) (h : hasSemicolon rest = true) :
    ∃ q, Parser.parseReturnStatment ⟨⟨RETURN, retLit⟩ :: rest, errs⟩
      = some (some (ReturnStatement.mk ⟨RETURN, retLit⟩ none), q)
      ∧ q.errors = errs := by
  obtain ⟨q, hq⟩ := skipToSemicolon_some_of_hasSemicolon rest errs
    (rest.length + 1) (by omega) h
  obtain ⟨_, herr, _, _⟩ := skipToSemicolon_some_spec _ _ _ hq
  have e0 : (Parser.mk (⟨RETURN, retLit⟩ :: rest) errs).nextToken
      = ⟨rest, errs⟩ := rfl
  refine ⟨q, ?_, herr⟩
  rw [Parser.parseReturnStatment, e0]
  dsimp only
  rw [hq]
  rfl

/-- Witness for C5: the stream of "return 5;". -/
theorem C5_witness :
    ∃ q, Parser.parseReturnStatment
        ⟨[⟨RETURN, "return"⟩, ⟨INT, "5"⟩, ⟨SEMICOLON, ";"⟩], []⟩
      = some (some (ReturnStatement.mk ⟨RETURN, "return"⟩ none), q)
      ∧ q.errors = [] :=
  C5_return_no_value "return" [⟨INT, "5"⟩, ⟨SEMICOLON, ";"⟩] [] (by decide)

/-- Counterexample to C5 as stated: for the stream of "return 5;" the
returned ReturnStatement's return-value field is none — not the parsed
trailing expression (which would be the integer literal 5). -/
theorem C5_counterexample :
    (Parser.parseReturnStatment
        ⟨[⟨RETURN, "return"⟩, ⟨INT, "5"⟩, ⟨SEMICOLON, ";"⟩], []⟩).map
        (fun r => r.1.map ReturnStatement.returnValue)
      = some (some none)
    ∧ (Parser.parseReturnStatment
        ⟨[⟨RETURN, "return"⟩, ⟨INT, "5"⟩, ⟨SEMICOLON, ";"⟩], []⟩).map
        (fun r => r.1.map ReturnStatement.returnValue)
      ≠ some (some (some (Expression.intLit 5))) :=
  ⟨by decide, by decide⟩

/-- C6: expectPeek's contract, for every parser state and required kind.  On
a mismatch it appends exactly the diagnostic "expected next token to be
KIND, got KIND instead" (required kind, then actual peek kind), returns
false and consumes nothing — the token window (hence curToken and peekToken)
is unchanged.  On a match it advances one token, returns true and appends no
diagnostic. -/
theorem C6_expectPeek_contract (p : Parser) (t : TokenType) :
    (p.peekToken.type ≠ t →
      p.expectPeek t = (false, ⟨p.toks, p.errors ++
        ["expected next token to be " ++ t ++ ", got " ++ p.peekToken.type
          ++ " instead"]⟩))
    ∧ (p.peekToken.type = t →
      p.expectPeek t = (true, ⟨p.toks.drop 1, p.errors⟩)) := by
  constructor
  · intro h
    rw [Parser.expectPeek_neg (by simp [Parser.peekTokenIs, h])]
    rfl
  · intro h
    rw [Parser.expectPeek_pos (by simp [Parser.peekTokenIs, h])]
    rfl

/-- Witness for C6: requiring `=` while peeking at an INT records the exact
diagnostic and leaves the tokens alone. -/
theorem C6_witness :
    Parser.expectPeek ⟨[⟨LET, "let"⟩, ⟨INT, "5"⟩], []⟩ ASSIGN
      = (false, ⟨[⟨LET, "let"⟩, ⟨INT, "5"⟩],
          ["expected next token to be =, got INT instead"]⟩) :=
  (C6_expectPeek_contract ⟨[⟨LET, "let"⟩, ⟨INT, "5"⟩], []⟩ ASSIGN).1 (by decide)

/-- C7: parsing the malformed "let x 5;" (LET, IDENT, INT, SEMICOLON, then
end-of-input) terminates, records exactly one diagnostic, and contributes no
statement node for the failed statement: the single Program entry is the
typed-nil *ast.LetStatement that parseLetStatment's nil return becomes when
ParseProgram's `stmt != nil` check sees it as a non-nil interface — it wraps
no node (second conjunct), matching the claim's "no statement node or a
partial one". -/
theorem C7_malformed_let_recovers :
    parseProgram 5 [⟨LET, "let"⟩, ⟨IDENT, "x"⟩, ⟨INT, "5"⟩, ⟨SEMICOLON, ";"⟩]
      = some (⟨[Statement.letStmt none]⟩,
          ⟨[], ["expected next token to be =, got INT instead"]⟩)
    ∧ (Statement.letStmt none).wrapsNode = false :=
  ⟨by decide, by decide⟩

/-- C9: parsing is deterministic — any two finished runs of New +
ParseProgram over the same token stream return the same Program and the same
diagnostics, whatever fuel each run was granted. -/
theorem C9_parse_deterministic (n1 n2 : Nat) (ts : List Token)
    (r1 r2 : Program × Parser) (h1 : parseProgram n1 ts = some r1)
    (h2 : parseProgram n2 ts = some r2) : r1 = r2 := by
  unfold parseProgram at h1 h2
  rcases Nat.le_total n1 n2 with h | h
  · have h3 := parseProgramFuel_mono_le h ⟨ts, []⟩ [] r1 h1
    exact Option.some.inj (h3.symm.trans h2)
  · have h3 := parseProgramFuel_mono_le h ⟨ts, []⟩ [] r2 h2
    exact Option.some.inj (h1.symm.trans h3)

/-- Witness for C9: two runs with different fuel on the stream ";" agree. -/
theorem C9_witness : (Program.mk [], Parser.mk [] []) = (Program.mk [], Parser.mk [] []) :=
  C9_parse_deterministic 2 3 [⟨SEMICOLON, ";"⟩] (⟨[]⟩, ⟨[], []⟩) (⟨[]⟩, ⟨[], []⟩)
    (by decide) (by decide)

/-- C10 (amended): a statement whose leading token is neither LET nor RETURN
is dropped — parseStatement returns the untyped nil with the parser
untouched (no entry, no diagnostic) — and every entry of every parsed
Program has dynamic type *ast.LetStatement or *ast.ReturnStatement, never
*ast.ExpressionStatement; entries appended for failed let statements,
however, are typed nils wrapping no node (see the counterexample), so the
Program's entries need not all be well-formed statement nodes. -/
theorem C10_only_let_return :
    (∀ p : Parser, p.curTokenIs LET = false → p.curTokenIs RETURN = false →
      p.parseStatement = some (none, p))
    ∧ (∀ (n : Nat) (ts : List Token) (prog : Program) (q : Parser),
      parseProgram n ts = some (prog, q) →
      ∀ st ∈ prog.statements, st.isLetOrReturn = true) := by
  constructor
  · intro p hlet hret
    rw [Parser.parseStatement, if_neg (by simp [hlet]), if_neg (by simp [hret])]
  · intro n ts prog q h
    exact parseProgramFuel_kinds n ⟨ts, []⟩ [] prog q (by intro st hst; simp at hst)
      (by simpa [parseProgram] using h)

/-- Witness for C10: an integer-literal leading token is dropped with the
parser untouched, and every entry of the Program parsed from "let x = 5;"
has LetStatement/ReturnStatement dynamic type. -/
theorem C10_witness :
    Parser.parseStatement ⟨[⟨INT, "5"⟩], []⟩ = some (none, ⟨[⟨INT, "5"⟩], []⟩)
    ∧ ∀ st ∈ (Program.mk [Statement.letStmt (some ⟨⟨LET, "let"⟩,
        some ⟨⟨IDENT, "x"⟩, "x"⟩, none⟩)]).statements, st.isLetOrReturn = true :=
  ⟨C10_only_let_return.1 ⟨[⟨INT, "5"⟩], []⟩ (by decide) (by decide),
   C10_only_let_return.2 6
     [⟨LET, "let"⟩, ⟨IDENT, "x"⟩, ⟨ASSIGN, "="⟩, ⟨INT, "5"⟩, ⟨SEMICOLON, ";"⟩]
     (Program.mk [Statement.letStmt (some ⟨⟨LET, "let"⟩,
       some ⟨⟨IDENT, "x"⟩, "x"⟩, none⟩)]) ⟨[], []⟩ (by decide)⟩

/-- Counterexample to C10 as stated: parsing "let x 5;" yields a Program
whose single entry is the typed-nil *ast.LetStatement appended when the let
statement failed its `=` check — an entry wrapping no node at all — so the
resulting Program does not consist solely of LetStatement and
ReturnStatement nodes. -/
theorem C10_counterexample :
    (parseProgram 5 [⟨LET, "let"⟩, ⟨IDENT, "x"⟩, ⟨INT, "5"⟩, ⟨SEMICOLON, ";"⟩]).map
        (fun r => r.1.statements.map Statement.wrapsNode)
      = some [false] := by
  decide

/-- C8: per REPL line, parse diagnostics gate evaluation — when the parse
left any diagnostic the shell prints the rendered diagnostics and never
invokes the evaluator for that line; when it left none the shell invokes the
evaluator on the Program and prints the Inspect rendering of the resulting
Object followed by a newline. -/
theorem C8_errors_block_eval (ev : Program → Option Object) (line : List Token)
    (program : Program) (p : Parser)
    (hp : parseProgram (line.length + 1) line = some (program, p)) :
    (p.errors ≠ [] → runLine ev line = some (printParserErrors p.errors, none))
    ∧ (∀ o : Object, p.errors = [] → ev program = some o →
      runLine ev line = some ([o.inspect, "\n"], some program)) := by
  constructor
  · intro h
    unfold runLine
    rw [hp]
    dsimp only
    rw [if_pos h]
  · intro o h1 h2
    unfold runLine
    rw [hp]
    dsimp only
    rw [if_neg (by simp [h1]), h2]

/-- Witness for C8: the malformed line "let x 5;" prints the diagnostics and
skips evaluation; the well-formed line ";" evaluates and prints the Null
object's rendering. -/
theorem C8_witness :
    runLine evalModel [⟨LET, "let"⟩, ⟨IDENT, "x"⟩, ⟨INT, "5"⟩, ⟨SEMICOLON, ";"⟩]
      = some (printParserErrors ["expected next token to be =, got INT instead"], none)
    ∧ runLine evalModel [⟨SEMICOLON, ";"⟩] = some (["null", "\n"], some ⟨[]⟩) :=
  ⟨(C8_errors_block_eval evalModel _ ⟨[Statement.letStmt none]⟩
      ⟨[], ["expected next token to be =, got INT instead"]⟩ (by decide)).1 (by decide),
   (C8_errors_block_eval evalModel _ ⟨[]⟩ ⟨[], []⟩ (by decide)).2 Object.nullObj rfl rfl⟩

end Monkey
